import Mathlib

/-!
Verification of the libgav1 CDEF pipeline (`src/post_filter/cdef.cc`) and
buffer pool (`src/buffer_pool.cc`) against their natural-language
specification.  The C++ code is shallowly embedded: pure computations become
Lean functions on `Nat`/`Int`, the stateful buffer pool becomes explicit
state passing over a list of buffer records, and the scheduling/dispatch
code is embedded as the trace of calls/events it produces.  The DSP backend
(`dsp_.cdef_direction`, `dsp_.cdef_filter`) is external to the repository
and is treated as opaque: its outputs are parameters of the embedding.
-/

namespace Libgav1

/-! ## CDEF per-unit filtering (`PostFilter::ApplyCdefForOneUnit`) -/

/-- The fixed chroma direction remap table, from
`constexpr uint8_t kCdefUvDirection[2][2][8]` in `post_filter/cdef.cc`,
indexed by (x-subsampling, y-subsampling, luma direction).  Out-of-range
indices (which the decoder never produces) default to 0. -/
def kCdefUvDirection (subsampling_x subsampling_y direction_y : Nat) : Nat :=
  match subsampling_x, subsampling_y with
  | 0, 0 => [0, 1, 2, 3, 4, 5, 6, 7].getD direction_y 0
  | 0, _ => [1, 2, 2, 2, 3, 4, 6, 0].getD direction_y 0
  | _, 0 => [7, 0, 2, 4, 5, 6, 6, 6].getD direction_y 0
  | _, _ => [0, 1, 2, 3, 4, 5, 6, 7].getD direction_y 0

/-- Modelled from the spec: `floor_log2` (libgav1's `FloorLog2` utility is in
`src/utils/common.h`, which is not part of the excerpted sources).  Computed
with an explicit fuel argument so that it is structurally recursive; the fuel
`n` always suffices because `log2 n < n` for `n > 0`. -/
def floorLog2Aux : Nat → Nat → Nat
  | 0, _ => 0
  | fuel + 1, n => if n ≤ 1 then 0 else floorLog2Aux fuel (n / 2) + 1

/-- Modelled from the spec: floor of the base-2 logarithm. -/
def FloorLog2 (n : Nat) : Nat := floorLog2Aux n n

/-- The per-index CDEF strengths and damping from the frame header
(`frame_header_.cdef`, already evaluated at the unit's strength `index`).
All strength fields are `uint8_t` in the source. -/
structure CdefParams where
  y_primary_strength : Nat
  y_secondary_strength : Nat
  uv_primary_strength : Nat
  uv_secondary_strength : Nat
  damping : Nat
deriving DecidableEq, Repr

/-- `variance_strength` from `ApplyCdefForOneUnit`:
`((variance >> 6) != 0) ? std::min(FloorLog2(variance >> 6), 12) : 0`. -/
def variance_strength (variance : Nat) : Nat :=
  if variance >>> 6 ≠ 0 then min (FloorLog2 (variance >>> 6)) 12 else 0

/-- The reassignment of `primary_strength` in `ApplyCdefForOneUnit`:
`(variance != 0) ? (primary_strength * (4 + variance_strength) + 8) >> 4 : 0`,
stored back into a `uint8_t` (hence the `% 256`). -/
def effective_primary_strength (primary variance : Nat) : Nat :=
  (if variance ≠ 0 then (primary * (4 + variance_strength variance) + 8) >>> 4 else 0) % 256

/-- What `ApplyCdefForOneUnit` does with one plane of one 8x8 (4x4 chroma)
block: either copy the source pixels unfiltered (`CopyPixels`) or invoke the
backend kernel `dsp_.cdef_filter` with the given strengths, damping and
direction.  The direction is an `Option` so that a read of the uninitialized
`direction_y` local would be visible as `none`. -/
inductive PlaneAction where
  | copy : PlaneAction
  | filter (primary secondary damping : Nat) (direction : Option Nat) : PlaneAction
deriving DecidableEq, Repr

/-- The body of the per-plane loop of `ApplyCdefForOneUnit` (lines 244-302)
for one 8x8 block: `skip` is the AND of the four co-located 4x4 skip flags,
`computeDV` is `compute_direction_and_variance`, `dirY`/`varY` are the
outputs the opaque backend `dsp_.cdef_direction` would write, and `dirState`
is the current state of the `direction_y` local (`none` = uninitialized).
Returns the action taken for this plane and the new `direction_y` state. -/
def planeStep (p : CdefParams) (skip : Bool) (subsampling_x subsampling_y : Nat)
    (computeDV : Bool) (dirY varY : Nat) (plane : Nat) (dirState : Option Nat) :
    PlaneAction × Option Nat :=
  if skip then (.copy, dirState)
  else if plane = 0 then
    let variance := if computeDV then varY else 0
    let dirState' := if computeDV then some dirY else dirState
    let primary := p.y_primary_strength
    let secondary := p.y_secondary_strength
    let direction : Option Nat := if primary = 0 then some 0 else dirState'
    let primary' := effective_primary_strength primary variance
    if primary' ||| secondary = 0 then (.copy, dirState')
    else (.filter primary' secondary p.damping direction, dirState')
  else
    let primary := p.uv_primary_strength
    let secondary := p.uv_secondary_strength
    let direction : Option Nat :=
      if primary = 0 then some 0
      else dirState.map (kCdefUvDirection subsampling_x subsampling_y)
    if primary ||| secondary = 0 then (.copy, dirState)
    else (.filter primary secondary (p.damping - 1) direction, dirState)

/-- The plane loop `for (plane = kPlaneY; plane < planes_; ++plane)` of
`ApplyCdefForOneUnit`, threading the `direction_y` state through the planes
in order.  `rem` is the number of planes still to process. -/
def planeLoop (p : CdefParams) (skip : Bool) (sx sy : Nat → Nat) (computeDV : Bool)
    (dirY varY : Nat) : Nat → Nat → Option Nat → List PlaneAction
  | _, 0, _ => []
  | plane, rem + 1, dirState =>
    let r := planeStep p skip (sx plane) (sy plane) computeDV dirY varY plane dirState
    r.1 :: planeLoop p skip sx sy computeDV dirY varY (plane + 1) rem r.2

/-- One 8x8 (4x4 chroma) block step of `ApplyCdefForOneUnit`: the list of
per-plane actions, and whether `dsp_.cdef_direction` was invoked for this
block (it is called in the luma iteration when the block is not skipped and
`compute_direction_and_variance` holds).  `compute_direction_and_variance`
is `(y_primary_strength[index] | uv_primary_strength[index]) != 0`. -/
def cdefBlockStep (p : CdefParams) (skip : Bool) (planes : Nat) (sx sy : Nat → Nat)
    (dirY varY : Nat) : List PlaneAction × Bool :=
  let computeDV := p.y_primary_strength ||| p.uv_primary_strength ≠ 0
  (planeLoop p skip sx sy computeDV dirY varY 0 planes none,
   !skip && computeDV && decide (0 < planes))

/-- The `CopyPixels` helper of `post_filter/cdef.cc`: copy a
`width` x `height` region from `src` into `dst`, leaving the rest of `dst`
unchanged.  Planes are modelled as functions from (row, column) to sample
value. -/
def CopyPixels (src dst : Nat → Nat → Nat) (width height : Nat) : Nat → Nat → Nat :=
  fun y x => if y < height ∧ x < width then src y x else dst y x

/-- Interpretation of a `PlaneAction` on the destination plane: `copy`
performs `CopyPixels` from the source; `filter` writes the opaque backend
kernel's output over the block region. -/
def applyPlaneAction (kernel : Nat → Nat → Nat → Option Nat → Nat → Nat → Nat)
    (src dst : Nat → Nat → Nat) (width height : Nat) :
    PlaneAction → Nat → Nat → Nat
  | .copy => CopyPixels src dst width height
  | .filter pr se da di =>
    fun y x => if y < height ∧ x < width then kernel pr se da di y x else dst y x

/-- The spec's strength-scaling formula, written from the spec's words for
comparison with the code (claim C2): `variance_strength = (V>>6 != 0) ?
min(floor_log2(V>>6), 12) : 0` and `effective_primary = (V != 0) ?
(primary_strength * (4 + variance_strength) + 8) >> 4 : 0`. -/
def specEffectivePrimary (p V : Nat) : Nat :=
  if V ≠ 0 then
    (p * (4 + (if V >>> 6 ≠ 0 then min (FloorLog2 (V >>> 6)) 12 else 0)) + 8) >>> 4
  else 0

/-! ## Row-lag scheduling (`PostFilter::ApplyCdefForOneSuperBlockRow`) -/

/-- One call to `ApplyCdefForOneSuperBlockRowHelper(row4x4, height4x4)`.
`deferred` marks the call site: `true` for the call at the top of the loop
that finishes the last 8 luma rows of the previous superblock row, `false`
for the call that filters the current rows. -/
structure HelperCall where
  deferred : Bool
  row4x4 : Nat
  height4x4 : Nat
deriving DecidableEq, Repr

/-- The loop body of `ApplyCdefForOneSuperBlockRow` (lines 347-370 of
`post_filter/cdef.cc`), as the trace of helper calls it makes.  `y` is the
loop variable (stepping by `kStep64x64 = 16`); the early `return` when
`row4x4 >= frame_header_.rows4x4` ends the trace. -/
def sbRowLoop (rows4x4 row4x4_start sb4x4 : Nat) (is_last_row : Bool) (y : Nat) :
    List HelperCall :=
  if y < sb4x4 then
    let row4x4 := row4x4_start + y
    if rows4x4 ≤ row4x4 then []
    else
      (if 0 < row4x4 ∧ (is_last_row = false ∨ y = 0) then
        [⟨true, row4x4 - 2, 2⟩] else []) ++
      (let block_height4x4 := min 16 (rows4x4 - row4x4)
       let height4x4 := block_height4x4 - (if is_last_row then 0 else 2)
       if 0 < height4x4 then [⟨false, row4x4, height4x4⟩] else []) ++
      sbRowLoop rows4x4 row4x4_start sb4x4 is_last_row (y + 16)
  else []
termination_by sb4x4 - y
decreasing_by omega

/-- `PostFilter::ApplyCdefForOneSuperBlockRow(row4x4_start, sb4x4,
is_last_row)` as the trace of `ApplyCdefForOneSuperBlockRowHelper` calls it
makes. -/
def ApplyCdefForOneSuperBlockRow (rows4x4 row4x4_start sb4x4 : Nat)
    (is_last_row : Bool) : List HelperCall :=
  sbRowLoop rows4x4 row4x4_start sb4x4 is_last_row 0

/-- The 64-row iteration values `0, 16, 32, ...` below `sb4x4`. -/
def itersFrom (sb4x4 : Nat) (y : Nat) : List Nat :=
  if y < sb4x4 then y :: itersFrom sb4x4 (y + 16) else []
termination_by sb4x4 - y
decreasing_by omega

/-- The row-lag schedule as the spec describes it, written from the spec's
words for comparison with the code (claim C3): for each 64-row iteration `y`
that is still inside the frame, first finish the previous band's deferred
last two 4x4-rows — absent when the band starts at row 0 and, on the last
superblock row, present only in the first iteration — then filter the
current band minus its two-row tail (no tail held back on the last row). -/
def lagScheduleSpec (rows4x4 row4x4_start sb4x4 : Nat) (is_last_row : Bool) :
    List HelperCall :=
  (((itersFrom sb4x4 0).takeWhile fun y => row4x4_start + y < rows4x4).flatMap
    fun y =>
      (if 0 < row4x4_start + y ∧ (is_last_row = false ∨ y = 0) then
        [⟨true, row4x4_start + y - 2, 2⟩] else []) ++
      (let h := min 16 (rows4x4 - (row4x4_start + y)) - (if is_last_row then 0 else 2)
       if 0 < h then [⟨false, row4x4_start + y, h⟩] else []))

/-! ## Threaded CDEF dispatch (`PostFilter::ApplyCdefThreaded`) -/

/-- Events in the per-window trace of `ApplyCdefThreaded`: a row-band
submitted to the worker pool (`thread_pool_->Schedule`), a row-band run on
the calling thread, the blocking wait on the counting barrier (recording the
count the `BlockingCounter` was constructed with), and the copy of one
plane of the window scratch buffer back into the frame buffer. -/
inductive CdefEvent where
  | schedule (row64x64 : Nat) : CdefEvent
  | inlineRun (row64x64 : Nat) : CdefEvent
  | wait (count : Nat) : CdefEvent
  | copyPlane (plane : Nat) : CdefEvent
deriving DecidableEq, Repr

/-- The row-band dispatch loop of `ApplyCdefThreaded` (lines 416-428):
`for (row64x64 = 0; row64x64 < actual_window_height4x4; row64x64 += 16)`,
submitting to the pool while `job_count < jobs_for_threadpool` and running
inline otherwise, incrementing `job_count` every iteration. -/
def bandEvents (jobs_for_threadpool : Nat) (actual_window_height4x4 : Nat)
    (row64x64 job_count : Nat) : List CdefEvent :=
  if row64x64 < actual_window_height4x4 then
    (if job_count < jobs_for_threadpool then CdefEvent.schedule row64x64
     else CdefEvent.inlineRun row64x64) ::
      bandEvents jobs_for_threadpool actual_window_height4x4 (row64x64 + 16)
        (job_count + 1)
  else []
termination_by actual_window_height4x4 - row64x64
decreasing_by omega

/-- The event trace of one window iteration of `ApplyCdefThreaded` (lines
412-449): compute `jobs_for_threadpool = vertical_units_per_window *
num_workers / (num_workers + 1)` with `vertical_units_per_window =
DivideBy16(actual_window_height4x4 + 15)`, dispatch the row-bands, wait on
the counting barrier, then copy each plane of the window back. -/
def ApplyCdefThreadedWindow (actual_window_height4x4 num_workers planes : Nat) :
    List CdefEvent :=
  let vertical_units_per_window := (actual_window_height4x4 + 15) / 16
  let jobs_for_threadpool :=
    vertical_units_per_window * num_workers / (num_workers + 1)
  bandEvents jobs_for_threadpool actual_window_height4x4 0 0 ++
    CdefEvent.wait jobs_for_threadpool ::
      (List.range planes).map CdefEvent.copyPlane

/-! ## Buffer pool (`src/buffer_pool.cc`) -/

/-- `kFrameStateUnknown`, the first value of the `FrameState` enum. -/
def kFrameStateUnknown : Nat := 0

/-- The lifecycle state of one `RefCountedBuffer` that `buffer_pool.cc`
reads or writes: the `in_use_`, `progress_row_`, `frame_state_`, HDR
presence and `buffer_private_data_valid_` members.  Pixel data and the
other frame metadata are not touched by the pool operations under
verification. -/
structure RefCountedBuffer where
  in_use : Bool
  progress_row : Int
  frame_state : Nat
  hdr_cll_set : Bool
  hdr_mdcv_set : Bool
  itut_t35_set : Bool
  buffer_private_data_valid : Bool
deriving DecidableEq, Repr

/-- A default-constructed `RefCountedBuffer` (`new (std::nothrow)
RefCountedBuffer()`); the in-class member initializers (from
`buffer_pool.h`, outside the excerpted sources) leave every flag cleared. -/
def newRefCountedBuffer : RefCountedBuffer :=
  ⟨false, 0, kFrameStateUnknown, false, false, false, false⟩

/-- The scan `for (auto buffer : buffers_) if (!buffer->in_use_)` of
`BufferPool::GetFreeBuffer`: index of the first buffer not in use. -/
def findFree : List RefCountedBuffer → Option Nat
  | [] => none
  | b :: rest => if b.in_use then (findFree rest).map (· + 1) else some 0

/-- The flag resets `GetFreeBuffer` performs on the buffer it claims. -/
def claimBuffer (b : RefCountedBuffer) : RefCountedBuffer :=
  { b with in_use := true, progress_row := -1, frame_state := kFrameStateUnknown,
           hdr_cll_set := false, hdr_mdcv_set := false, itut_t35_set := false }

/-- `BufferPool::GetFreeBuffer`: claim the first free buffer, resetting its
per-frame flags; if none is free, allocate a new buffer, mark it in use and
append it.  `allocOk` models the success of the `new (std::nothrow)`
allocation and the `push_back`; on failure a null pointer is returned
(modelled as `none`) and the pool is unchanged.  Returns the new pool state
and the index of the returned buffer. -/
def GetFreeBuffer (pool : List RefCountedBuffer) (allocOk : Bool) :
    List RefCountedBuffer × Option Nat :=
  match findFree pool with
  | some i => (pool.set i (claimBuffer (pool.getD i newRefCountedBuffer)), some i)
  | none =>
    if allocOk then
      (pool ++ [{ newRefCountedBuffer with
                    in_use := true, progress_row := -1,
                    frame_state := kFrameStateUnknown }], some pool.length)
    else (pool, none)

/-- `BufferPool::ReturnUnusedBuffer`: `none` when the `assert(in_use_)`
contract is violated; otherwise the new pool state together with whether the
external `release_frame_buffer_` callback was invoked (it is invoked, and
`buffer_private_data_valid_` cleared, exactly when private data was
bound). -/
def ReturnUnusedBuffer (pool : List RefCountedBuffer) (i : Nat) :
    Option (List RefCountedBuffer × Bool) :=
  match pool[i]? with
  | none => none
  | some b =>
    if b.in_use then
      some (pool.set i { b with in_use := false, buffer_private_data_valid := false },
            b.buffer_private_data_valid)
    else none

/-- `RefCountedBuffer::Realloc` on one buffer: `none` when the
`assert(!buffer_private_data_valid_)` contract is violated; otherwise the
boolean result (the success of the external `yuv_buffer_.Realloc` /
get-frame-buffer callback, modelled by `callbackOk`) and the buffer's new
state. -/
def Realloc (b : RefCountedBuffer) (callbackOk : Bool) :
    Option (Bool × RefCountedBuffer) :=
  if b.buffer_private_data_valid then none
  else if callbackOk then some (true, { b with buffer_private_data_valid := true })
  else some (false, b)

/-- `Realloc` lifted to the pool (the buffer is updated in place in the
pool's collection). -/
def ReallocInPool (pool : List RefCountedBuffer) (i : Nat) (callbackOk : Bool) :
    Option (Bool × List RefCountedBuffer) :=
  match pool[i]? with
  | none => none
  | some b => (Realloc b callbackOk).map fun r => (r.1, pool.set i r.2)

/-- Client-visible pool operations: an acquire (`GetFreeBuffer`, with the
given allocation outcome) or the release of the handle with the given
buffer index (`ReturnUnusedBuffer`, invoked by the handle's destruction
hook). -/
inductive PoolOp where
  | acquire (allocOk : Bool) : PoolOp
  | release (i : Nat) : PoolOp
deriving DecidableEq, Repr

/-- A pool together with the indices of the live handles: buffers returned
by an acquire whose handle has not yet been released. -/
structure PoolTrace where
  pool : List RefCountedBuffer
  live : List Nat
deriving DecidableEq, Repr

/-- One client operation on the pool.  A release is performed only for a
live handle (each handle's destruction hook runs exactly once). -/
def stepOp (s : PoolTrace) : PoolOp → PoolTrace
  | .acquire ok =>
    match GetFreeBuffer s.pool ok with
    | (pool', some i) => ⟨pool', i :: s.live⟩
    | (pool', none) => ⟨pool', s.live⟩
  | .release i =>
    if i ∈ s.live then
      match ReturnUnusedBuffer s.pool i with
      | some r => ⟨r.1, s.live.erase i⟩
      | none => s
    else s

/-- Run a sequence of client operations from an empty pool. -/
def runOps (ops : List PoolOp) : PoolTrace :=
  ops.foldl stepOp ⟨[], []⟩

/-! ## Helper lemmas -/

theorem lor_eq_zero_iff (a b : Nat) : a ||| b = 0 ↔ a = 0 ∧ b = 0 := by
  constructor
  · intro h
    constructor <;>
      · apply Nat.eq_of_testBit_eq
        intro i
        have hb := congrArg (fun n => Nat.testBit n i) h
        simp only [Nat.testBit_lor, Nat.zero_testBit, Bool.or_eq_false_iff] at hb
        simp [hb.1, hb.2, Nat.zero_testBit]
  · rintro ⟨rfl, rfl⟩
    rfl

theorem lt_length_of_getElem?_eq_some {α : Type} {l : List α} {i : Nat} {a : α}
    (h : l[i]? = some a) : i < l.length := by
  by_contra hge
  rw [List.getElem?_eq_none (by omega)] at h
  exact Option.noConfusion h

/-! ## C8: `RefCountedBuffer::Realloc` contract -/

/-- C8: `Realloc` requires that no pixel storage is currently bound (the
`assert(!buffer_private_data_valid_)` fires otherwise); if the external
get-storage callback fails it returns failure with the buffer unchanged (in
particular `buffer_private_data_valid_` remains false); on success the flag
becomes true and nothing else changes. -/
theorem realloc_contract (b : RefCountedBuffer) (callbackOk : Bool) :
    (b.buffer_private_data_valid = true → Realloc b callbackOk = none) ∧
    (b.buffer_private_data_valid = false → callbackOk = false →
      Realloc b callbackOk = some (false, b)) ∧
    (b.buffer_private_data_valid = false → callbackOk = true →
      Realloc b callbackOk =
        some (true, { b with buffer_private_data_valid := true })) := by
  exact ⟨fun h => by simp [Realloc, h], fun h hc => by simp [Realloc, h, hc],
    fun h hc => by simp [Realloc, h, hc]⟩

/-- Witness for `realloc_contract` at concrete buffers. -/
theorem realloc_contract_witness :
    Realloc newRefCountedBuffer false = some (false, newRefCountedBuffer) ∧
    Realloc { newRefCountedBuffer with buffer_private_data_valid := true } true
      = none :=
  ⟨(realloc_contract newRefCountedBuffer false).2.1 rfl rfl,
   (realloc_contract { newRefCountedBuffer with buffer_private_data_valid := true }
      true).1 rfl⟩

/-! ## C7: `BufferPool::ReturnUnusedBuffer` contract -/

/-- C7: releasing a buffer asserts `in_use_` (contract violation, modelled
as `none`, otherwise); on a legitimate release it clears `in_use_`, invokes
the external release-storage callback and clears
`buffer_private_data_valid_` exactly when storage was bound, and the buffer
stays in the pool's collection: the collection keeps its length, slot `i`
holds the same buffer with only those two flags changed, and every other
slot is untouched. -/
theorem return_unused_buffer_contract (pool : List RefCountedBuffer) (i : Nat)
    (b : RefCountedBuffer) (hb : pool[i]? = some b) :
    (b.in_use = false → ReturnUnusedBuffer pool i = none) ∧
    (b.in_use = true →
      ReturnUnusedBuffer pool i =
        some (pool.set i { b with in_use := false, buffer_private_data_valid := false },
              b.buffer_private_data_valid) ∧
      (pool.set i
          { b with in_use := false, buffer_private_data_valid := false }).length =
        pool.length ∧
      (pool.set i { b with in_use := false, buffer_private_data_valid := false })[i]? =
        some { b with in_use := false, buffer_private_data_valid := false } ∧
      ∀ j, j ≠ i →
        (pool.set i { b with in_use := false, buffer_private_data_valid := false })[j]? =
          pool[j]?) := by
  have hlen : i < pool.length := lt_length_of_getElem?_eq_some hb
  refine ⟨fun h => ?_, fun h => ⟨?_, ?_, ?_, fun j hj => ?_⟩⟩
  · simp [ReturnUnusedBuffer, hb, h]
  · simp [ReturnUnusedBuffer, hb, h]
  · exact List.length_set pool i _
  · exact List.getElem?_set_self hlen
  · exact List.getElem?_set_ne (fun hij => hj hij.symm)

/-! ## C1: chroma direction remap -/

theorem planeStepY_snd (p : CdefParams) (sx0 sy0 : Nat) (dirY varY : Nat)
    (st : Option Nat) :
    (planeStep p false sx0 sy0 true dirY varY 0 st).2 = some dirY := by
  simp [planeStep, apply_ite Prod.snd]

theorem planeStepChroma_snd (p : CdefParams) (skip : Bool) (sxp syp : Nat)
    (cdv : Bool) (dirY varY : Nat) (plane : Nat) (st : Option Nat)
    (hp : plane ≠ 0) :
    (planeStep p skip sxp syp cdv dirY varY plane st).2 = st := by
  simp [planeStep, hp, apply_ite Prod.snd]

theorem planeLoop3_shape (p : CdefParams) (cdv : Bool) (sx sy : Nat → Nat)
    (dirY varY : Nat) :
    planeLoop p false sx sy cdv dirY varY 0 3 none =
      [(planeStep p false (sx 0) (sy 0) cdv dirY varY 0 none).1,
       (planeStep p false (sx 1) (sy 1) cdv dirY varY 1
         (planeStep p false (sx 0) (sy 0) cdv dirY varY 0 none).2).1,
       (planeStep p false (sx 2) (sy 2) cdv dirY varY 2
         (planeStep p false (sx 0) (sy 0) cdv dirY varY 0 none).2).1] := by
  simp only [planeLoop]
  rw [planeStepChroma_snd p false (sx 1) (sy 1) cdv dirY varY 1 _ one_ne_zero]

theorem planeStepChroma_primary (p : CdefParams) (sxp syp : Nat) (cdv : Bool)
    (dirY varY plane : Nat) (st : Option Nat) (hplane : plane ≠ 0)
    (huv : p.uv_primary_strength ≠ 0) :
    (planeStep p false sxp syp cdv dirY varY plane st).1 =
      .filter p.uv_primary_strength p.uv_secondary_strength (p.damping - 1)
        (st.map (kCdefUvDirection sxp syp)) := by
  have huvlor : ¬p.uv_primary_strength ||| p.uv_secondary_strength = 0 := fun hc =>
    huv ((lor_eq_zero_iff _ _).mp hc).1
  simp [planeStep, hplane, huv, huvlor]

theorem planeStepChroma_secondary_only (p : CdefParams) (sxp syp : Nat)
    (cdv : Bool) (dirY varY plane : Nat) (st : Option Nat) (hplane : plane ≠ 0)
    (hz : p.uv_primary_strength = 0) (hs : p.uv_secondary_strength ≠ 0) :
    (planeStep p false sxp syp cdv dirY varY plane st).1 =
      .filter p.uv_primary_strength p.uv_secondary_strength (p.damping - 1)
        (some 0) := by
  have huvlor : ¬p.uv_primary_strength ||| p.uv_secondary_strength = 0 := fun hc =>
    hs ((lor_eq_zero_iff _ _).mp hc).2
  simp [planeStep, hplane, hz, hs, huvlor]

/-- C1 (amended): the chroma filter direction is never computed
independently.  For every non-skipped unit whose chroma plane is filtered,
the direction passed to the filter kernel for the U and V planes is
`kCdefUvDirection` applied to the plane's (x-subsampling, y-subsampling)
and the luma direction whenever the chroma primary strength is nonzero,
and is the fixed value 0 when the chroma primary strength is zero
(secondary-only filtering, line 279-282 of the source); in particular, for
(x-subsampled, y-subsampled) = (1,1) the table row is the identity, so
direction 0 maps to 0, direction 4 maps to 4 and direction 7 maps to 7. -/
theorem cdef_uv_direction_remap (p : CdefParams) (sx sy : Nat → Nat)
    (dirY varY : Nat) :
    (p.uv_primary_strength ≠ 0 →
      (cdefBlockStep p false 3 sx sy dirY varY).1.get? 1 =
        some (.filter p.uv_primary_strength p.uv_secondary_strength (p.damping - 1)
          (some (kCdefUvDirection (sx 1) (sy 1) dirY))) ∧
      (cdefBlockStep p false 3 sx sy dirY varY).1.get? 2 =
        some (.filter p.uv_primary_strength p.uv_secondary_strength (p.damping - 1)
          (some (kCdefUvDirection (sx 2) (sy 2) dirY)))) ∧
    (p.uv_primary_strength = 0 → p.uv_secondary_strength ≠ 0 →
      (cdefBlockStep p false 3 sx sy dirY varY).1.get? 1 =
        some (.filter p.uv_primary_strength p.uv_secondary_strength (p.damping - 1)
          (some 0)) ∧
      (cdefBlockStep p false 3 sx sy dirY varY).1.get? 2 =
        some (.filter p.uv_primary_strength p.uv_secondary_strength (p.damping - 1)
          (some 0))) ∧
    kCdefUvDirection 1 1 0 = 0 ∧ kCdefUvDirection 1 1 4 = 4 ∧
    kCdefUvDirection 1 1 7 = 7 := by
  refine ⟨fun huv => ?_, fun hz hs => ?_, by decide, by decide, by decide⟩
  · have hlor : p.y_primary_strength ||| p.uv_primary_strength ≠ 0 := fun hc =>
      huv ((lor_eq_zero_iff _ _).mp hc).2
    have hc3 : (cdefBlockStep p false 3 sx sy dirY varY).1 =
        planeLoop p false sx sy true dirY varY 0 3 none := by
      simp only [cdefBlockStep]
      rw [show (decide (p.y_primary_strength ||| p.uv_primary_strength ≠ 0)) = true
        by simpa using hlor]
    rw [hc3, planeLoop3_shape, planeStepY_snd]
    constructor
    · simp only [List.get?]
      rw [planeStepChroma_primary p (sx 1) (sy 1) true dirY varY 1 (some dirY)
        one_ne_zero huv]
      rfl
    · simp only [List.get?]
      rw [planeStepChroma_primary p (sx 2) (sy 2) true dirY varY 2 (some dirY)
        (Nat.succ_ne_zero 1) huv]
      rfl
  · have hc3 : (cdefBlockStep p false 3 sx sy dirY varY).1 =
        planeLoop p false sx sy
          (decide (p.y_primary_strength ||| p.uv_primary_strength ≠ 0))
          dirY varY 0 3 none := by
      simp only [cdefBlockStep]
    rw [hc3, planeLoop3_shape]
    constructor
    · simp only [List.get?]
      rw [planeStepChroma_secondary_only p (sx 1) (sy 1) _ dirY varY 1 _
        one_ne_zero hz hs]
    · simp only [List.get?]
      rw [planeStepChroma_secondary_only p (sx 2) (sy 2) _ dirY varY 2 _
        (Nat.succ_ne_zero 1) hz hs]

/-- Witness for `cdef_uv_direction_remap`, exercising both cases: a unit
with nonzero chroma primary strength (direction from the table) and a
secondary-only unit (direction 0). -/
theorem cdef_uv_direction_remap_witness :
    (cdefBlockStep ⟨0, 0, 5, 2, 6⟩ false 3 (fun _ => 1) (fun _ => 0) 4 0).1.get? 1 =
      some (.filter 5 2 5 (some (kCdefUvDirection 1 0 4))) ∧
    (cdefBlockStep ⟨0, 0, 0, 2, 6⟩ false 3 (fun _ => 1) (fun _ => 1) 4 0).1.get? 1 =
      some (.filter 0 2 5 (some 0)) :=
  ⟨((cdef_uv_direction_remap ⟨0, 0, 5, 2, 6⟩ (fun _ => 1) (fun _ => 0) 4 0).1
      (by decide)).1,
   ((cdef_uv_direction_remap ⟨0, 0, 0, 2, 6⟩ (fun _ => 1) (fun _ => 1) 4 0).2.1
      (by decide) (by decide)).1⟩

/-- C1 (counterexample to the claim as stated): for
(x-subsampled, y-subsampled) = (1,1) the table maps luma direction 0 to 0 —
not to 7 — and direction 4 to 4 — not to 5; concretely, a chroma unit with
both subsamplings 1, chroma primary strength 1 and luma direction 0 is
filtered with direction 0. -/
theorem cdef_uv_direction_claim_counterexample :
    (cdefBlockStep ⟨0, 0, 1, 0, 3⟩ false 3 (fun _ => 1) (fun _ => 1) 0 0).1.get? 1 =
      some (.filter 1 0 2 (some 0)) ∧
    (cdefBlockStep ⟨0, 0, 1, 0, 3⟩ false 3 (fun _ => 1) (fun _ => 1) 0 0).1.get? 1 ≠
      some (.filter 1 0 2 (some 7)) ∧
    kCdefUvDirection 1 1 0 = 0 ∧
    ¬(kCdefUvDirection 1 1 0 = 7 ∧ kCdefUvDirection 1 1 4 = 5 ∧
      kCdefUvDirection 1 1 7 = 7) := by decide

/-! ## C2: primary strength scaling -/

theorem variance_strength_le (V : Nat) : variance_strength V ≤ 12 := by
  unfold variance_strength
  split
  · exact min_le_right _ _
  · omega

theorem effective_primary_strength_eq_spec (q V : Nat) (hq : q < 256) :
    effective_primary_strength q V = specEffectivePrimary q V := by
  have hle : (if V ≠ 0 then (q * (4 + variance_strength V) + 8) >>> 4 else 0) < 256 := by
    split
    · have hvs := variance_strength_le V
      have h16 : q * (4 + variance_strength V) + 8 ≤ q * 16 + 8 := by
        have : 4 + variance_strength V ≤ 16 := by omega
        exact Nat.add_le_add_right (Nat.mul_le_mul_left q this) 8
      calc (q * (4 + variance_strength V) + 8) >>> 4
          = (q * (4 + variance_strength V) + 8) / 16 := by
            rw [Nat.shiftRight_eq_div_pow]
        _ ≤ (q * 16 + 8) / 16 := Nat.div_le_div_right h16
        _ < 256 := by omega
    · omega
  unfold effective_primary_strength specEffectivePrimary variance_strength
  rw [Nat.mod_eq_of_lt]
  exact hle

/-- C2: the effective primary strength the luma filter kernel is invoked
with is exactly the spec's scaling of the configured primary strength by
the computed variance `V`: `variance_strength = (V>>6 != 0) ?
min(floor_log2(V>>6), 12) : 0` and `effective_primary = (V != 0) ?
(primary * (4 + variance_strength) + 8) >> 4 : 0` — where `V` is the
backend's variance when `compute_direction_and_variance` held and 0
otherwise; moreover the code's computation agrees with the spec formula for
every `uint8_t` strength, `V = 0` yields 0, and `V = 4096` with strength 16
yields 10. -/
theorem cdef_strength_scaling (p : CdefParams) (sx sy : Nat → Nat)
    (dirY varY : Nat) (planes : Nat) (skip : Bool) (pr se da : Nat)
    (di : Option Nat) (hp : p.y_primary_strength < 256)
    (h : (cdefBlockStep p skip planes sx sy dirY varY).1.get? 0 =
      some (.filter pr se da di)) :
    pr = specEffectivePrimary p.y_primary_strength
        (if p.y_primary_strength ||| p.uv_primary_strength ≠ 0 then varY else 0) ∧
    (∀ q V, q < 256 → effective_primary_strength q V = specEffectivePrimary q V) ∧
    specEffectivePrimary p.y_primary_strength 0 = 0 ∧
    specEffectivePrimary 16 4096 = 10 := by
  refine ⟨?_, fun q V hq => effective_primary_strength_eq_spec q V hq,
    by simp [specEffectivePrimary], by decide⟩
  rw [← effective_primary_strength_eq_spec _ _ hp]
  match planes with
  | 0 => simp [cdefBlockStep, planeLoop] at h
  | n + 1 =>
    simp only [cdefBlockStep, planeLoop, List.get?, Option.some.injEq] at h
    cases skip with
    | true => simp [planeStep] at h
    | false =>
      rw [planeStep] at h
      simp only [Bool.false_eq_true, if_false] at h
      simp only [if_true, decide_eq_true_eq, apply_ite Prod.fst] at h
      split_ifs at h with hC hz hy
      all_goals first
        | exact PlaneAction.noConfusion h
        | simp_all

/-- Witness for `cdef_strength_scaling` at strength 16 and variance 4096. -/
theorem cdef_strength_scaling_witness :
    (10 : Nat) = specEffectivePrimary 16
      (if (16 : Nat) ||| 0 ≠ 0 then 4096 else 0) :=
  (cdef_strength_scaling ⟨16, 1, 0, 0, 3⟩ (fun _ => 0) (fun _ => 0) 5 4096 1 false
    10 1 3 (some 5) (by decide) (by decide)).1

/-! ## C4: skip-marked units are copied unfiltered -/

theorem planeStep_skip (p : CdefParams) (sxp syp : Nat) (cdv : Bool)
    (dirY varY plane : Nat) (st : Option Nat) :
    planeStep p true sxp syp cdv dirY varY plane st = (PlaneAction.copy, st) := by
  simp [planeStep]

theorem planeLoop_skip_eq_copy (p : CdefParams) (sx sy : Nat → Nat) (cdv : Bool)
    (dirY varY : Nat) :
    ∀ rem plane st a, a ∈ planeLoop p true sx sy cdv dirY varY plane rem st →
      a = PlaneAction.copy := by
  intro rem
  induction rem with
  | zero => intro plane st a ha; simp [planeLoop] at ha
  | succ n ih =>
    intro plane st a ha
    simp only [planeLoop, planeStep_skip, List.mem_cons] at ha
    rcases ha with rfl | ha
    · rfl
    · exact ih (plane + 1) _ a ha

/-- C4: for an 8x8 (4x4 subsampled chroma) unit whose four co-located 4x4
blocks all have the skip flag set, no direction/variance computation is
performed (`dsp_.cdef_direction` is never invoked) and the action for every
plane is an unfiltered `CopyPixels`, so the destination pixels of the unit
are identical to the corresponding source region on every plane. -/
theorem cdef_skip_unit_copied (p : CdefParams) (planes : Nat) (sx sy : Nat → Nat)
    (dirY varY : Nat) (kernel : Nat → Nat → Nat → Option Nat → Nat → Nat → Nat)
    (src dst : Nat → Nat → Nat) (block_width block_height : Nat) :
    (cdefBlockStep p true planes sx sy dirY varY).2 = false ∧
    ∀ a ∈ (cdefBlockStep p true planes sx sy dirY varY).1,
      a = PlaneAction.copy ∧
      ∀ y x, y < block_height → x < block_width →
        applyPlaneAction kernel src dst block_width block_height a y x = src y x := by
  constructor
  · simp [cdefBlockStep]
  · intro a ha
    have hc : a = PlaneAction.copy := by
      simp only [cdefBlockStep] at ha
      exact planeLoop_skip_eq_copy p sx sy _ dirY varY planes 0 none a ha
    subst hc
    refine ⟨rfl, fun y x hy hx => ?_⟩
    simp [applyPlaneAction, CopyPixels, hy, hx]

/-- Witness for `cdef_skip_unit_copied` on a concrete unit. -/
theorem cdef_skip_unit_copied_witness :
    applyPlaneAction (fun _ _ _ _ _ _ => 0) (fun y x => 10 * y + x) (fun _ _ => 99)
      8 8 PlaneAction.copy 3 4 = 34 :=
  (((cdef_skip_unit_copied ⟨4, 2, 3, 1, 5⟩ 3 (fun _ => 0) (fun _ => 0) 6 777
      (fun _ _ _ _ _ _ => 0) (fun y x => 10 * y + x) (fun _ _ => 99) 8 8).2
    PlaneAction.copy (by decide)).2 3 4 (by decide) (by decide)).trans rfl

/-! ## C10: the luma direction is always initialized before use -/

theorem planeLoop_chroma_direction_defined (p : CdefParams) (skip : Bool)
    (sx sy : Nat → Nat) (cdv : Bool) (dirY varY : Nat) :
    ∀ rem plane st, plane ≠ 0 →
      (skip = false → p.uv_primary_strength ≠ 0 → st ≠ none) →
      ∀ a ∈ planeLoop p skip sx sy cdv dirY varY plane rem st,
        ∀ pr se da di, a = PlaneAction.filter pr se da di → di ≠ none := by
  intro rem
  induction rem with
  | zero => intro plane st _ _ a ha; simp [planeLoop] at ha
  | succ n ih =>
    intro plane st hplane hst a ha pr se da di hafil
    simp only [planeLoop, List.mem_cons] at ha
    rcases ha with rfl | ha
    · cases skip with
      | true =>
        rw [planeStep_skip] at hafil
        exact PlaneAction.noConfusion hafil
      | false =>
        rw [planeStep] at hafil
        simp only [if_neg hplane, Bool.false_eq_true, if_false,
          apply_ite Prod.fst] at hafil
        split_ifs at hafil with hz hy
        all_goals first
          | exact PlaneAction.noConfusion hafil
          | (obtain ⟨-, -, -, hdi⟩ := PlaneAction.filter.inj hafil
             simp [← hdi]
             done)
          | (obtain ⟨-, -, -, hdi⟩ := PlaneAction.filter.inj hafil
             simp [← hdi]
             exact hst rfl hy)
    · rw [planeStepChroma_snd p skip (sx plane) (sy plane) cdv dirY varY plane st
        hplane] at ha
      exact ih (plane + 1) st (Nat.succ_ne_zero plane) hst a ha pr se da di hafil

/-- C10: whenever the per-unit filter invokes the kernel — in particular
whenever the chroma branch reads the luma direction through the
`kCdefUvDirection` lookup — the direction it passes is defined (never the
uninitialized `direction_y`): the `compute_direction_and_variance` gate,
the OR of the luma and chroma primary strengths, guarantees `direction_y`
was written by the backend in the same unit iteration before any use. -/
theorem cdef_direction_always_initialized (p : CdefParams) (skip : Bool)
    (planes : Nat) (sx sy : Nat → Nat) (dirY varY : Nat) :
    ∀ a ∈ (cdefBlockStep p skip planes sx sy dirY varY).1,
      ∀ pr se da di, a = PlaneAction.filter pr se da di → di ≠ none := by
  intro a ha pr se da di hafil
  simp only [cdefBlockStep] at ha
  match planes with
  | 0 => simp [planeLoop] at ha
  | n + 1 =>
    simp only [planeLoop, List.mem_cons] at ha
    rcases ha with rfl | ha
    · cases skip with
      | true =>
        rw [planeStep_skip] at hafil
        exact PlaneAction.noConfusion hafil
      | false =>
        rw [planeStep] at hafil
        simp only [Bool.false_eq_true, if_false, if_true, if_pos rfl,
          decide_eq_true_eq, apply_ite Prod.fst] at hafil
        split_ifs at hafil
        all_goals first
          | exact PlaneAction.noConfusion hafil
          | (obtain ⟨-, -, -, hdi⟩ := PlaneAction.filter.inj hafil
             simp [← hdi]
             done)
          | simp_all [lor_eq_zero_iff]
    · cases skip with
      | true =>
        have := planeLoop_skip_eq_copy p sx sy _ dirY varY n 1 _ a ha
        rw [this] at hafil
        exact PlaneAction.noConfusion hafil
      | false =>
        refine planeLoop_chroma_direction_defined p false sx sy _ dirY varY n 1 _
          one_ne_zero (fun _ huv => ?_) a ha pr se da di hafil
        rw [show (decide (p.y_primary_strength ||| p.uv_primary_strength ≠ 0)) = true
          by simpa using fun hzz => huv ((lor_eq_zero_iff _ _).mp hzz).2]
        rw [planeStepY_snd]
        simp

/-! ## C5/C6: buffer acquisition -/

theorem findFree_spec : ∀ (pool : List RefCountedBuffer) (i : Nat),
    findFree pool = some i → ∃ b, pool[i]? = some b ∧ b.in_use = false := by
  intro pool
  induction pool with
  | nil => intro i h; exact Option.noConfusion h
  | cons b rest ih =>
    intro i h
    rw [findFree] at h
    by_cases hb : b.in_use
    · rw [if_pos hb] at h
      match hr : findFree rest with
      | none => rw [hr] at h; simp at h
      | some k =>
        rw [hr] at h
        simp only [Option.map_some', Option.some.injEq] at h
        obtain ⟨bb, hbb, hbu⟩ := ih k hr
        exact ⟨bb, by rw [← h, List.getElem?_cons_succ]; exact hbb, hbu⟩
    · rw [if_neg hb] at h
      simp only [Option.some.injEq] at h
      exact ⟨b, by rw [← h]; simp, by simpa using hb⟩

theorem getFreeBuffer_some_claimed (pool : List RefCountedBuffer) (allocOk : Bool)
    (pool' : List RefCountedBuffer) (i : Nat)
    (hg : GetFreeBuffer pool allocOk = (pool', some i)) :
    ∃ bi, pool'[i]? = some bi ∧ bi.in_use = true ∧ bi.progress_row = -1 ∧
      bi.frame_state = kFrameStateUnknown ∧ bi.hdr_cll_set = false ∧
      bi.hdr_mdcv_set = false ∧ bi.itut_t35_set = false := by
  rw [GetFreeBuffer] at hg
  match hf : findFree pool with
  | some k =>
    rw [hf] at hg
    obtain ⟨hp, hi⟩ := Prod.mk.inj hg
    obtain ⟨bk, hbk, -⟩ := findFree_spec pool k hf
    have hlen : k < pool.length := lt_length_of_getElem?_eq_some hbk
    obtain rfl : k = i := Option.some.inj hi
    refine ⟨claimBuffer (pool.getD k newRefCountedBuffer), ?_, rfl, rfl, rfl, rfl,
      rfl, rfl⟩
    rw [← hp]
    exact List.getElem?_set_self hlen
  | none =>
    rw [hf] at hg
    cases allocOk with
    | false => simp at hg
    | true =>
      simp only [if_true] at hg
      obtain ⟨hp, hi⟩ := Prod.mk.inj hg
      obtain rfl : pool.length = i := Option.some.inj hi
      refine ⟨⟨true, -1, kFrameStateUnknown, false, false, false, false⟩, ?_, rfl,
        rfl, rfl, rfl, rfl, rfl⟩
      rw [← hp]
      exact List.getElem?_concat_length pool _

theorem getFreeBuffer_some_prev (pool : List RefCountedBuffer) (allocOk : Bool)
    (pool' : List RefCountedBuffer) (i : Nat)
    (hg : GetFreeBuffer pool allocOk = (pool', some i)) :
    pool[i]? = none ∨ ∃ b, pool[i]? = some b ∧ b.in_use = false := by
  rw [GetFreeBuffer] at hg
  match hf : findFree pool with
  | some k =>
    rw [hf] at hg
    obtain rfl : k = i := Option.some.inj (Prod.mk.inj hg).2
    exact Or.inr (findFree_spec pool k hf)
  | none =>
    rw [hf] at hg
    cases allocOk with
    | false => simp at hg
    | true =>
      simp only [if_true] at hg
      obtain rfl : pool.length = i := Option.some.inj (Prod.mk.inj hg).2
      exact Or.inl (List.getElem?_eq_none (Nat.le_refl _))

theorem getFreeBuffer_preserves_in_use (pool : List RefCountedBuffer)
    (allocOk : Bool) (j : Nat) (b : RefCountedBuffer) (hb : pool[j]? = some b)
    (hbu : b.in_use = true) :
    (GetFreeBuffer pool allocOk).1[j]? = some b := by
  rw [GetFreeBuffer]
  match hf : findFree pool with
  | some k =>
    obtain ⟨bk, hbk, hbku⟩ := findFree_spec pool k hf
    have hne : k ≠ j := by
      intro hkj
      subst hkj
      rw [hb] at hbk
      rw [Option.some.inj hbk] at hbu
      rw [hbu] at hbku
      exact Bool.noConfusion hbku
    simpa using (List.getElem?_set_ne hne).trans hb
  | none =>
    cases allocOk with
    | false => simpa using hb
    | true =>
      have hlen : j < pool.length := lt_length_of_getElem?_eq_some hb
      simpa using (List.getElem?_append_left hlen).trans hb

theorem getFreeBuffer_none (pool : List RefCountedBuffer) (allocOk : Bool)
    (pool' : List RefCountedBuffer)
    (hg : GetFreeBuffer pool allocOk = (pool', none)) : pool' = pool := by
  rw [GetFreeBuffer] at hg
  match hf : findFree pool with
  | some k => rw [hf] at hg; simp at hg
  | none =>
    rw [hf] at hg
    cases allocOk with
    | false => exact ((Prod.mk.inj hg).1).symm
    | true => simp at hg

/-- The invariant maintained by the pool operations: the live handles are
pairwise distinct and each live handle's buffer is marked in use. -/
def PoolInv (s : PoolTrace) : Prop :=
  s.live.Nodup ∧ ∀ i ∈ s.live, ∃ b, s.pool[i]? = some b ∧ b.in_use = true

theorem stepOp_preserves (s : PoolTrace) (op : PoolOp) (hs : PoolInv s) :
    PoolInv (stepOp s op) := by
  cases op with
  | acquire ok =>
    simp only [stepOp]
    match hg : GetFreeBuffer s.pool ok with
    | (pool', none) =>
      rw [getFreeBuffer_none s.pool ok pool' hg]
      exact hs
    | (pool', some i) =>
      constructor
      · refine List.nodup_cons.mpr ⟨fun hmem => ?_, hs.1⟩
        obtain ⟨b, hb, hbu⟩ := hs.2 i hmem
        rcases getFreeBuffer_some_prev s.pool ok pool' i hg with hnone | ⟨b', hb', hbu'⟩
        · rw [hb] at hnone
          exact Option.noConfusion hnone
        · rw [hb] at hb'
          rw [Option.some.inj hb'] at hbu
          rw [hbu] at hbu'
          exact Bool.noConfusion hbu'
      · intro j hj
        rcases List.mem_cons.mp hj with rfl | hj
        · obtain ⟨bi, hbi, hbiu, -⟩ := getFreeBuffer_some_claimed s.pool ok pool' j hg
          exact ⟨bi, hbi, hbiu⟩
        · obtain ⟨b, hb, hbu⟩ := hs.2 j hj
          refine ⟨b, ?_, hbu⟩
          have := getFreeBuffer_preserves_in_use s.pool ok j b hb hbu
          rw [hg] at this
          exact this
  | release i =>
    simp only [stepOp]
    by_cases hmem : i ∈ s.live
    · rw [if_pos hmem]
      obtain ⟨b, hb, hbu⟩ := hs.2 i hmem
      have hr : ReturnUnusedBuffer s.pool i =
          some (s.pool.set i
            { b with in_use := false, buffer_private_data_valid := false },
            b.buffer_private_data_valid) := by
        simp [ReturnUnusedBuffer, hb, hbu]
      rw [hr]
      refine ⟨hs.1.erase i, fun j hj => ?_⟩
      obtain ⟨hne, hjl⟩ := (hs.1.mem_erase_iff).mp hj
      obtain ⟨b', hb', hbu'⟩ := hs.2 j hjl
      exact ⟨b', (List.getElem?_set_ne fun h => hne h.symm).trans hb', hbu'⟩
    · rw [if_neg hmem]
      exact hs

/-- C5: mutual exclusion on `in_use_`.  For any sequence of acquire/release
operations starting from an empty pool, the indices of the live handles are
pairwise distinct — no two acquires ever return the same underlying buffer
while both handles are live — and every live handle's buffer is marked in
use.  Moreover every successful acquire returns a buffer slot that was
previously absent or free and is marked in use afterwards, and an acquire
never touches a buffer that is in use (only a release clears the flag). -/
theorem buffer_pool_mutual_exclusion :
    (∀ ops : List PoolOp,
      (runOps ops).live.Nodup ∧
      ∀ i ∈ (runOps ops).live,
        ∃ b, (runOps ops).pool[i]? = some b ∧ b.in_use = true) ∧
    (∀ (pool : List RefCountedBuffer) (allocOk : Bool) pool' i,
      GetFreeBuffer pool allocOk = (pool', some i) →
      (pool[i]? = none ∨ ∃ b, pool[i]? = some b ∧ b.in_use = false) ∧
      ∃ b', pool'[i]? = some b' ∧ b'.in_use = true) ∧
    (∀ (pool : List RefCountedBuffer) (allocOk : Bool) (j : Nat)
      (b : RefCountedBuffer), pool[j]? = some b → b.in_use = true →
      (GetFreeBuffer pool allocOk).1[j]? = some b) := by
  refine ⟨fun ops => ?_, fun pool ok pool' i hg => ?_, ?_⟩
  · have hrun : ∀ s, PoolInv s → PoolInv (ops.foldl stepOp s) := by
      induction ops with
      | nil => exact fun s hs => hs
      | cons op rest ih => exact fun s hs => ih _ (stepOp_preserves s op hs)
    exact hrun ⟨[], []⟩ ⟨List.nodup_nil, by simp⟩
  · refine ⟨getFreeBuffer_some_prev pool ok pool' i hg, ?_⟩
    obtain ⟨bi, hbi, hbiu, -⟩ := getFreeBuffer_some_claimed pool ok pool' i hg
    exact ⟨bi, hbi, hbiu⟩
  · intro pool ok j b hb hbu
    exact getFreeBuffer_preserves_in_use pool ok j b hb hbu

/-- Witness for `buffer_pool_mutual_exclusion`: two acquires on an
initially empty pool return distinct live handles, and acquiring from a
pool whose only buffer is in use leaves that buffer untouched. -/
theorem buffer_pool_mutual_exclusion_witness :
    (runOps [PoolOp.acquire true, PoolOp.acquire true]).live.Nodup ∧
    (GetFreeBuffer [⟨true, -1, 0, false, false, false, true⟩] true).1[0]? =
      some ⟨true, -1, 0, false, false, false, true⟩ :=
  ⟨(buffer_pool_mutual_exclusion.1 [PoolOp.acquire true, PoolOp.acquire true]).1,
   buffer_pool_mutual_exclusion.2.2 [⟨true, -1, 0, false, false, false, true⟩] true 0
     ⟨true, -1, 0, false, false, false, true⟩ rfl rfl⟩

/-- C6: round-trip.  After acquiring a buffer, binding storage to it,
releasing it, and re-acquiring the same underlying buffer slot, every
per-frame flag of the returned buffer is at its initial value: `in_use_`
is true (claimed), the progress counter is -1, the frame state is
`kFrameStateUnknown`, and the HDR-metadata-presence flags are false. -/
theorem buffer_pool_round_trip (pool p1 p2 p3 p4 : List RefCountedBuffer)
    (ok1 ok2 : Bool) (i : Nat) (bj : RefCountedBuffer) (released : Bool)
    (_h1 : GetFreeBuffer pool ok1 = (p1, some i))
    (_h2 : ReallocInPool p1 i true = some (true, p2))
    (_h3 : ReturnUnusedBuffer p2 i = some (p3, released))
    (h4 : GetFreeBuffer p3 ok2 = (p4, some i))
    (h5 : p4[i]? = some bj) :
    bj.in_use = true ∧ bj.progress_row = -1 ∧ bj.frame_state = kFrameStateUnknown ∧
    bj.hdr_cll_set = false ∧ bj.hdr_mdcv_set = false ∧ bj.itut_t35_set = false := by
  obtain ⟨bi, hbi, hf⟩ := getFreeBuffer_some_claimed p3 ok2 p4 i h4
  rw [h5] at hbi
  rw [Option.some.inj hbi]
  exact hf

/-- Witness for `buffer_pool_round_trip`: the full concrete round-trip on
an initially empty pool. -/
theorem buffer_pool_round_trip_witness :
    (⟨true, -1, 0, false, false, false, false⟩ : RefCountedBuffer).in_use = true ∧
    (⟨true, -1, 0, false, false, false, false⟩ : RefCountedBuffer).progress_row = -1 ∧
    (⟨true, -1, 0, false, false, false, false⟩ : RefCountedBuffer).frame_state =
      kFrameStateUnknown ∧
    (⟨true, -1, 0, false, false, false, false⟩ : RefCountedBuffer).hdr_cll_set = false ∧
    (⟨true, -1, 0, false, false, false, false⟩ : RefCountedBuffer).hdr_mdcv_set = false ∧
    (⟨true, -1, 0, false, false, false, false⟩ : RefCountedBuffer).itut_t35_set =
      false :=
  buffer_pool_round_trip []
    [⟨true, -1, 0, false, false, false, false⟩]
    [⟨true, -1, 0, false, false, false, true⟩]
    [⟨false, -1, 0, false, false, false, false⟩]
    [⟨true, -1, 0, false, false, false, false⟩]
    true true 0 ⟨true, -1, 0, false, false, false, false⟩ true
    (by decide) (by decide) (by decide) (by decide) (by decide)

/-! ## C3: row-lag scheduling -/

theorem sbRowLoop_eq_takeWhile (rows row0 sb : Nat) (last : Bool) :
    ∀ y, sbRowLoop rows row0 sb last y =
      ((itersFrom sb y).takeWhile fun z => row0 + z < rows).flatMap
        (fun z =>
          (if 0 < row0 + z ∧ (last = false ∨ z = 0) then
            [⟨true, row0 + z - 2, 2⟩] else []) ++
          (let h := min 16 (rows - (row0 + z)) - (if last then 0 else 2)
           if 0 < h then [⟨false, row0 + z, h⟩] else [])) := by
  intro y
  generalize hfuel : sb - y = fuel
  induction fuel using Nat.strong_induction_on generalizing y with
  | _ fuel ih =>
  by_cases hy : y < sb
  · rw [sbRowLoop, itersFrom]
    simp only [if_pos hy, List.takeWhile_cons]
    by_cases hrow : rows ≤ row0 + y
    · rw [if_pos hrow]
      have hd : decide (row0 + y < rows) = false := by
        simp only [decide_eq_false_iff_not]
        omega
      rw [hd]
      simp
    · rw [if_neg hrow]
      have hd : decide (row0 + y < rows) = true := by
        simp only [decide_eq_true_eq]
        omega
      rw [hd]
      simp only [if_true, List.flatMap_cons]
      rw [ih (sb - (y + 16)) (by omega) (y + 16) rfl]
  · rw [sbRowLoop, itersFrom]
    simp [hy]

theorem mem_sbRowLoop (rows row0 sb : Nat) (last : Bool) :
    ∀ y c, c ∈ sbRowLoop rows row0 sb last y →
      ∃ z, y ≤ z ∧ z < sb ∧ 16 ∣ z - y ∧ row0 + z < rows ∧
        ((c.deferred = true ∧ c.row4x4 = row0 + z - 2 ∧ c.height4x4 = 2 ∧
          0 < row0 + z ∧ (last = false ∨ z = 0)) ∨
         (c.deferred = false ∧ c.row4x4 = row0 + z ∧
          c.height4x4 = min 16 (rows - (row0 + z)) - (if last then 0 else 2) ∧
          0 < c.height4x4)) := by
  intro y
  generalize hfuel : sb - y = fuel
  induction fuel using Nat.strong_induction_on generalizing y with
  | _ fuel ih =>
  intro c hc
  by_cases hy : y < sb
  · rw [sbRowLoop] at hc
    simp only [if_pos hy] at hc
    by_cases hrow : rows ≤ row0 + y
    · simp [if_pos hrow] at hc
    · rw [if_neg hrow] at hc
      rcases List.mem_append.mp hc with hc1 | hcr
      · rcases List.mem_append.mp hc1 with hca | hcb
        · by_cases hp : 0 < row0 + y ∧ (last = false ∨ y = 0)
          · rw [if_pos hp] at hca
            rw [List.mem_singleton] at hca
            subst hca
            exact ⟨y, Nat.le_refl y, hy, by omega, by omega,
              Or.inl ⟨rfl, rfl, rfl, hp.1, hp.2⟩⟩
          · rw [if_neg hp] at hca
            simp at hca
        · by_cases hh : 0 < min 16 (rows - (row0 + y)) - (if last then 0 else 2)
          · rw [if_pos hh] at hcb
            rw [List.mem_singleton] at hcb
            subst hcb
            exact ⟨y, Nat.le_refl y, hy, by omega, by omega,
              Or.inr ⟨rfl, rfl, rfl, hh⟩⟩
          · rw [if_neg hh] at hcb
            simp at hcb
      · obtain ⟨z, hz1, hz2, hz3, hz4, hz5⟩ :=
          ih (sb - (y + 16)) (by omega) (y + 16) rfl c hcr
        exact ⟨z, by omega, hz2, by omega, hz4, hz5⟩
  · rw [sbRowLoop] at hc
    simp [hy] at hc

theorem sbRowLoop_head (rows row0 sb : Nat) (last : Bool) (h0 : 0 < row0)
    (hrow : row0 < rows) (hsb : 0 < sb) :
    (sbRowLoop rows row0 sb last 0).head? = some ⟨true, row0 - 2, 2⟩ := by
  rw [sbRowLoop]
  rw [if_pos hsb]
  rw [if_neg (by omega : ¬rows ≤ row0 + 0)]
  rw [if_pos (by exact ⟨by omega, Or.inr rfl⟩ :
    0 < row0 + 0 ∧ (last = false ∨ (0 : Nat) = 0))]
  rfl

/-- C3: the two-phase row-lag schedule.  The trace of helper calls made by
`ApplyCdefForOneSuperBlockRow` equals the spec's schedule (finish the
previous band's deferred last two 4x4-rows, then filter the current band
minus its tail); moreover: when `row4x4_start = 0` (the very first
superblock row) no deferred call reaches above row 14, so there is no
earlier row's work to finish; every current-row call on a non-last row
covers `min 16 (rows4x4 - row) - 2` rows (the last two 4x4-rows are held
back) while on the last row it covers the full `min 16 (rows4x4 - row)`;
when `is_last_row` holds, deferred work (of the previous superblock row) is
performed only in the first 64-row iteration (`y = 0`); and on a
non-first, in-frame row the very first call performed is the deferred
`(row4x4_start - 2, 2)` call. -/
theorem cdef_superblock_row_lag (rows4x4 row4x4_start sb4x4 : Nat)
    (is_last_row : Bool) :
    ApplyCdefForOneSuperBlockRow rows4x4 row4x4_start sb4x4 is_last_row =
      lagScheduleSpec rows4x4 row4x4_start sb4x4 is_last_row ∧
    (row4x4_start = 0 →
      ∀ c ∈ ApplyCdefForOneSuperBlockRow rows4x4 row4x4_start sb4x4 is_last_row,
        c.deferred = true → 14 ≤ c.row4x4) ∧
    (∀ c ∈ ApplyCdefForOneSuperBlockRow rows4x4 row4x4_start sb4x4 is_last_row,
      c.deferred = false →
        c.height4x4 = min 16 (rows4x4 - c.row4x4) - (if is_last_row then 0 else 2)) ∧
    (is_last_row = true →
      ∀ c ∈ ApplyCdefForOneSuperBlockRow rows4x4 row4x4_start sb4x4 is_last_row,
        c.deferred = true → c.row4x4 = row4x4_start - 2) ∧
    (0 < row4x4_start → row4x4_start < rows4x4 → 0 < sb4x4 →
      (ApplyCdefForOneSuperBlockRow rows4x4 row4x4_start sb4x4 is_last_row).head? =
        some ⟨true, row4x4_start - 2, 2⟩) := by
  refine ⟨sbRowLoop_eq_takeWhile rows4x4 row4x4_start sb4x4 is_last_row 0, ?_, ?_, ?_,
    fun h1 h2 h3 => sbRowLoop_head rows4x4 row4x4_start sb4x4 is_last_row h1 h2 h3⟩
  · intro h0 c hc hdef
    obtain ⟨z, -, -, hdvd, -, hor⟩ :=
      mem_sbRowLoop rows4x4 row4x4_start sb4x4 is_last_row 0 c hc
    rcases hor with ⟨-, hrow, -, hpos, -⟩ | ⟨hfd, -, -, -⟩
    · subst h0
      omega
    · rw [hdef] at hfd
      exact Bool.noConfusion hfd
  · intro c hc hfd
    obtain ⟨z, -, -, -, -, hor⟩ :=
      mem_sbRowLoop rows4x4 row4x4_start sb4x4 is_last_row 0 c hc
    rcases hor with ⟨hdef, -, -, -, -⟩ | ⟨-, hrow, hh, -⟩
    · rw [hfd] at hdef
      exact Bool.noConfusion hdef
    · rw [hrow]
      exact hh
  · intro hlast c hc hdef
    obtain ⟨z, -, -, -, -, hor⟩ :=
      mem_sbRowLoop rows4x4 row4x4_start sb4x4 is_last_row 0 c hc
    rcases hor with ⟨-, hrow, -, -, hor2⟩ | ⟨hfd, -, -, -⟩
    · rcases hor2 with hf | rfl
      · rw [hlast] at hf
        exact Bool.noConfusion hf
      · simpa using hrow
    · rw [hdef] at hfd
      exact Bool.noConfusion hfd

/-- Witness for `cdef_superblock_row_lag` on a concrete frame: a 48-row
(192 luma pixels) frame, middle superblock row starting at 4x4-row 16. -/
theorem cdef_superblock_row_lag_witness :
    (ApplyCdefForOneSuperBlockRow 48 16 16 false).head? = some ⟨true, 14, 2⟩ :=
  (cdef_superblock_row_lag 48 16 16 false).2.2.2.2 (by decide) (by decide) (by decide)

/-! ## C9: threaded dispatch -/

/-- Whether an event is a submission to the worker pool. -/
def isScheduleEvent : CdefEvent → Bool
  | .schedule _ => true
  | _ => false

/-- Whether an event is a row-band run inline on the calling thread. -/
def isInlineEvent : CdefEvent → Bool
  | .inlineRun _ => true
  | _ => false

theorem bandEvents_counts (jobs actual : Nat) : ∀ b,
    (bandEvents jobs actual (16 * b) b).countP isScheduleEvent =
      min jobs ((actual + 15) / 16) - b ∧
    (bandEvents jobs actual (16 * b) b).countP isInlineEvent =
      ((actual + 15) / 16 - b) - (min jobs ((actual + 15) / 16) - b) ∧
    ∀ e ∈ bandEvents jobs actual (16 * b) b,
      isScheduleEvent e = true ∨ isInlineEvent e = true := by
  intro b
  generalize hfuel : actual - 16 * b = fuel
  induction fuel using Nat.strong_induction_on generalizing b with
  | _ fuel ih =>
  by_cases hlt : 16 * b < actual
  · have hbN : b < (actual + 15) / 16 := by omega
    rw [bandEvents, if_pos hlt, show 16 * b + 16 = 16 * (b + 1) by ring]
    obtain ⟨ih1, ih2, ih3⟩ := ih (actual - 16 * (b + 1)) (by omega) (b + 1) rfl
    by_cases hj : b < jobs
    · rw [if_pos hj]
      refine ⟨?_, ?_, ?_⟩
      · rw [List.countP_cons, ih1]
        simp [isScheduleEvent]
        omega
      · rw [List.countP_cons, ih2]
        simp [isInlineEvent]
        omega
      · intro e he
        rcases List.mem_cons.mp he with rfl | he
        · exact Or.inl rfl
        · exact ih3 e he
    · rw [if_neg hj]
      refine ⟨?_, ?_, ?_⟩
      · rw [List.countP_cons, ih1]
        simp [isScheduleEvent]
        omega
      · rw [List.countP_cons, ih2]
        simp [isInlineEvent]
        omega
      · intro e he
        rcases List.mem_cons.mp he with rfl | he
        · exact Or.inr rfl
        · exact ih3 e he
  · have hbN : (actual + 15) / 16 ≤ b := by omega
    rw [bandEvents, if_neg hlt]
    refine ⟨by simp; omega, by simp; omega, by simp⟩

theorem jobs_le_units (N W : Nat) : N * W / (W + 1) ≤ N := by
  calc N * W / (W + 1) ≤ N * (W + 1) / (W + 1) :=
        Nat.div_le_div_right (Nat.mul_le_mul_left N (Nat.le_succ W))
    _ = N := Nat.mul_div_cancel N (Nat.succ_pos W)

/-- C9: in the threaded CDEF pass, for a window of
`N = DivideBy16(actual_window_height4x4 + 15)` 64-pixel row-bands and a
pool of `W` workers, the trace decomposes as the dispatched bands, then the
barrier wait, then the plane copies: exactly `N * W / (W + 1)` bands are
submitted to the worker pool, the remaining `N - N * W / (W + 1)` run
inline on the calling thread, the counting barrier is constructed with
exactly the number of submitted jobs, and every copy of window results back
to the frame buffer occurs after the barrier wait. -/
theorem cdef_threaded_dispatch (actual_window_height4x4 num_workers planes : Nat) :
    ∃ pre post,
      ApplyCdefThreadedWindow actual_window_height4x4 num_workers planes =
        pre ++ CdefEvent.wait
          ((actual_window_height4x4 + 15) / 16 * num_workers / (num_workers + 1)) ::
            post ∧
      pre.countP isScheduleEvent =
        (actual_window_height4x4 + 15) / 16 * num_workers / (num_workers + 1) ∧
      pre.countP isInlineEvent =
        (actual_window_height4x4 + 15) / 16 -
          (actual_window_height4x4 + 15) / 16 * num_workers / (num_workers + 1) ∧
      (∀ e ∈ pre, isScheduleEvent e = true ∨ isInlineEvent e = true) ∧
      (∀ e ∈ post, ∃ pl, e = CdefEvent.copyPlane pl) := by
  refine ⟨bandEvents
      ((actual_window_height4x4 + 15) / 16 * num_workers / (num_workers + 1))
      actual_window_height4x4 0 0,
    (List.range planes).map CdefEvent.copyPlane, rfl, ?_, ?_, ?_, ?_⟩
  · have h := (bandEvents_counts
      ((actual_window_height4x4 + 15) / 16 * num_workers / (num_workers + 1))
      actual_window_height4x4 0).1
    rw [show (16 * 0 : Nat) = 0 by ring] at h
    rw [h]
    have hle := jobs_le_units ((actual_window_height4x4 + 15) / 16) num_workers
    generalize (actual_window_height4x4 + 15) / 16 * num_workers / (num_workers + 1)
      = j at hle ⊢
    omega
  · have h := (bandEvents_counts
      ((actual_window_height4x4 + 15) / 16 * num_workers / (num_workers + 1))
      actual_window_height4x4 0).2.1
    rw [show (16 * 0 : Nat) = 0 by ring] at h
    rw [h]
    have hle := jobs_le_units ((actual_window_height4x4 + 15) / 16) num_workers
    generalize (actual_window_height4x4 + 15) / 16 * num_workers / (num_workers + 1)
      = j at hle ⊢
    omega
  · have h := (bandEvents_counts
      ((actual_window_height4x4 + 15) / 16 * num_workers / (num_workers + 1))
      actual_window_height4x4 0).2.2
    rw [show (16 * 0 : Nat) = 0 by ring] at h
    exact h
  · intro e he
    obtain ⟨pl, -, rfl⟩ := List.mem_map.mp he
    exact ⟨pl, rfl⟩

/-- Witness for `cdef_direction_always_initialized` on a concrete unit. -/
theorem cdef_direction_always_initialized_witness : (some 3 : Option Nat) ≠ none :=
  cdef_direction_always_initialized ⟨2, 1, 1, 1, 4⟩ false 3 (fun _ => 1) (fun _ => 1)
    3 100 (PlaneAction.filter 1 1 4 (some 3)) (by decide) 1 1 4 (some 3) rfl

/-- Witness for `return_unused_buffer_contract` on a concrete pool. -/
theorem return_unused_buffer_contract_witness :
    ReturnUnusedBuffer [⟨true, -1, 0, false, false, false, true⟩] 0 =
      some ([⟨false, -1, 0, false, false, false, false⟩], true) ∧
    ReturnUnusedBuffer [newRefCountedBuffer] 0 = none := by
  constructor
  · exact ((return_unused_buffer_contract [⟨true, -1, 0, false, false, false, true⟩]
      0 ⟨true, -1, 0, false, false, false, true⟩ rfl).2 rfl).1
  · exact (return_unused_buffer_contract [newRefCountedBuffer] 0
      newRefCountedBuffer rfl).1 rfl

end Libgav1
